import Mathlib

/-!
Shallow embedding of `src/taskwiki/cache.py` (the line-addressed multi-index
cache and synchronization engine of taskwiki), together with proofs that
settle the frozen claims about it.

Modelling conventions:
* Python dicts are association lists (`List (κ × α)`) in insertion order with
  unique keys; `alookup`, `ainsert`, `aerase` mirror `d.get`, `d[k] = v` and
  `del d[k]`.
* Exceptions are explicit: an operation returns `Except PyErr β` together with
  the state it leaves behind.  `PyErr` distinguishes the exception classes the
  source can raise.
* The vim buffer is a `List String`; `vim.current.buffer.append(line, pos)`,
  `del vim.current.buffer[pos]` and item assignment are modelled by
  `bufferAppend`, `bufferDelete` and list `set`, with vim's out-of-range
  errors made explicit.
* The module `regexp` (pattern `GENERIC_TASK`) and `vwtask.ShortUUID` are not
  part of the extracted source; where needed they are modelled from the spec
  (`parse_identity(line) -> {uuid, source} | none`; an identity is the pair
  `(store_name, uuid)`), as noted on each definition.
* The `while` loop of `vimwikitask_dependency_order` is modelled with an
  explicit pass counter (`fuel`): `depOrderGo fuel cur = none` means the loop
  has not emptied its working set within `fuel` full passes.  A separate
  theorem shows that once a full pass makes no progress, no amount of fuel
  finishes the loop — i.e. the source loop runs forever.
-/

/-- The Python exception classes that `cache.py` can raise, by class only
(messages are irrelevant to the claims).  `nameError` covers the unbound plain
names `get_method` and `vimwikitask` in `NoNoneStore.__getitem__`;
`attributeError` covers reads of missing attributes (`self.vimwikitask_cache`
on `TaskCache`, `.get` on `NoNoneStore`); `taskWikiException` is
`util.TaskWikiException` raised by `WarriorStore.__getitem__`. -/
inductive PyErr where
  | nameError
  | attributeError
  | indexError
  | valueError
  | keyError
  | taskWikiException
  deriving DecidableEq, Repr

/-- Association-list lookup: `d.get(key)` on a Python dict. -/
def alookup {κ α : Type} [DecidableEq κ] : List (κ × α) → κ → Option α
  | [], _ => none
  | p :: ps, k => if p.1 = k then some p.2 else alookup ps k

/-- The key list of a dict (insertion order). -/
def akeys {κ α : Type} (l : List (κ × α)) : List κ := l.map Prod.fst

/-- `d[key] = value` on a Python dict: replaces in place, appends if new. -/
def ainsert {κ α : Type} [DecidableEq κ] : List (κ × α) → κ → α → List (κ × α)
  | [], k, v => [(k, v)]
  | p :: ps, k, v => if p.1 = k then (k, v) :: ps else p :: ainsert ps k v

/-- `del d[key]` on a Python dict (removes the entry with that key). -/
def aerase {κ α : Type} [DecidableEq κ] (l : List (κ × α)) (k : κ) : List (κ × α) :=
  l.filter (fun p => p.1 ≠ k)

/-- One external task record: only its uuid matters to `cache.py`. -/
structure TWTask where
  uuid : String
  deriving DecidableEq, Repr

/-- One configured TaskWarrior connection (`tasklib.TaskWarrior`): its key in
`WarriorStore.warriors` and the task database behind it.  `WarriorStore`
creates exactly one instance per key, so Python object identity of a
connection coincides with its key. -/
structure Warrior where
  name : String
  tasks : List TWTask
  deriving DecidableEq, Repr

/-- `vwtask.VimwikiTask`, reduced to the fields `cache.py` reads:
`line_number` and `add_dependencies`.  In the source `add_dependencies` holds
references to other task wrappers and the dependency-order scan reads
`t['line_number']` off each of them; since no structural edit runs during
that scan, the list is embedded as the referenced wrappers' current
`line_number` values. -/
structure VwTask where
  line_number : Nat
  add_dependencies : List Nat
  deriving DecidableEq, Repr

/-- The key type of `TaskStore`: `vwtask.ShortUUID(task['uuid'], tw)`.
Modelled from the spec: `vwtask.py` is not part of the extracted source; per
the spec an identity reference is the pair `(store_name, uuid)`, so the key is
the uuid string paired with the connection's key. -/
abbrev TaskKey := String × String

/-- A match of `regexp.GENERIC_TASK`: the `source` and `uuid` groups.
Modelled from the spec: `regexp.py` is not part of the extracted source; per
the spec, line parsing is a pure function `parse_identity(line) ->
{uuid, source} | none`. -/
structure GTMatch where
  source : Option String
  uuid : Option String
  deriving DecidableEq, Repr

/-- The mutable state of one `TaskCache`: the vim buffer it scans, the
`VwtaskStore` backing dict (`self.vwtask.store`), the `TaskStore` backing dict
(`self.task.store`), and the authority flag.  Store values are `Option`s: a
stored Python `None` (which `NoNoneStore` is designed never to keep) reads
back exactly like an absent key through `dict.get`. -/
structure TaskCache where
  buffer : List String
  vwtask : List (Nat × Option VwTask)
  task : List (TaskKey × Option TWTask)
  buffer_has_authority : Bool
  deriving DecidableEq, Repr

namespace NoNoneStore

/-- `NoNoneStore.__getitem__`.  `item = self.store.get(key)` reads the backing
dict; on a miss the source then evaluates `get_method(self, key)` — but no
plain name `get_method` is bound anywhere in the module, so a `NameError` is
raised; on a hit the source evaluates `if vimwikitask is not None:` — and no
plain name `vimwikitask` is bound either, so a `NameError` is raised as well.
Every lookup therefore raises before any compute or store step, and the
backing dict is returned unchanged. -/
def getitem {κ α : Type} [DecidableEq κ] (s : List (κ × Option α)) (k : κ) :
    Except PyErr (Option α) × List (κ × Option α) :=
  match (alookup s k).bind id with
  | none => (.error .nameError, s)
  | some _ => (.error .nameError, s)

/-- `NoNoneStore.__setitem__`.  A non-`None` value is stored
(`self.store[key] = value`).  For value `None` the source runs
`if key in self:` — the class defines neither `__contains__` nor `__iter__`,
so Python falls back to the sequence protocol and evaluates `self[0]` first;
`__getitem__` (see `getitem`) raises `NameError` on that very first probe, so
neither the membership test nor the deletion (`del self[key]`, itself
unsupported: there is no `__delitem__`) is ever reached and the backing dict
is left unchanged. -/
def setitem {κ α : Type} [DecidableEq κ] (s : List (κ × Option α)) (k : κ)
    (v : Option α) : Except PyErr Unit × List (κ × Option α) :=
  match v with
  | none => (.error .nameError, s)
  | some w => (.ok (), ainsert s k (some w))

end NoNoneStore

/-- `WarriorStore.__getitem__`: resolve a connection key, raising
`util.TaskWikiException` when it is not configured. -/
def warriorsGet (ws : List (String × Warrior)) (key : String) :
    Except PyErr Warrior :=
  match alookup ws key with
  | some tw => .ok tw
  | none => .error .taskWikiException

/-- `vim.current.buffer.append(line, pos)`: inserts the line so that it gets
index `pos` (0-indexed); vim raises an out-of-range error when
`pos > len(buffer)`. -/
def bufferAppend (b : List String) (line : String) (pos : Nat) :
    Except PyErr (List String) :=
  if pos ≤ b.length then .ok (b.take pos ++ line :: b.drop pos)
  else .error .indexError

/-- `del vim.current.buffer[pos]`: removes the line at `pos`; vim raises an
out-of-range error when `pos ≥ len(buffer)`. -/
def bufferDelete (b : List String) (pos : Nat) : Except PyErr (List String) :=
  if pos < b.length then .ok (b.take pos ++ b.drop (pos + 1))
  else .error .indexError

namespace TaskCache

/-- `TaskCache.insert_line`.  The line is first inserted into the vim buffer;
the source then iterates `self.vimwikitask_cache.values()` — but `TaskCache`
has no attribute `vimwikitask_cache` (its stores are `task`, `vwtask`,
`viewport`, `line`), so an `AttributeError` is raised with the buffer already
mutated and the wrapper store untouched. -/
def insert_line (st : TaskCache) (line : String) (position : Nat) :
    Except PyErr Unit × TaskCache :=
  match bufferAppend st.buffer line position with
  | .error e => (.error e, st)
  | .ok b => (.error .attributeError, { st with buffer := b })

/-- `TaskCache.remove_line`.  The buffer line is deleted; the source then runs
`del self.vimwikitask_cache[position]` — no such attribute exists on
`TaskCache`, so an `AttributeError` is raised with the buffer already mutated
and the wrapper store untouched. -/
def remove_line (st : TaskCache) (position : Nat) :
    Except PyErr Unit × TaskCache :=
  match bufferDelete st.buffer position with
  | .error e => (.error e, st)
  | .ok b => (.error .attributeError, { st with buffer := b })

/-- `TaskCache.swap_lines`.  After the explicit bounds check (`raise
ValueError` when either position reaches the buffer length), the two raw
buffer lines are exchanged; the source then evaluates
`temp = self.vwtask[position2]`, which goes through
`NoNoneStore.__getitem__` and raises `NameError` (see `NoNoneStore.getitem`),
leaving the wrapper store and every `line_number` untouched.  Were that read
ever to return, the next statement's right-hand side
`self.vwtask.get(position1)` would raise `AttributeError` — `NoNoneStore` has
no method `get` — still before any cache write. -/
def swap_lines (st : TaskCache) (position1 position2 : Nat) :
    Except PyErr Unit × TaskCache :=
  if st.buffer.length ≤ position1 ∨ st.buffer.length ≤ position2 then
    (.error .valueError, st)
  else
    let b := (st.buffer.set position2 (st.buffer.getD position1 "")).set
      position1 (st.buffer.getD position2 "")
    match (NoNoneStore.getitem st.vwtask position2).1 with
    | .error e => (.error e, { st with buffer := b })
    | .ok _ => (.error .attributeError, { st with buffer := b })

/-- The loop body of `TaskCache.load_vwtasks`:
`for i in range(len(vim.current.buffer)): self.vwtask[i]`.  Each iteration is
a `NoNoneStore.__getitem__` call on the wrapper store; an exception aborts the
loop, keeping whatever store the failing call left behind. -/
def loadLoop (st : TaskCache) : List Nat → Except PyErr Unit × TaskCache
  | [] => (.ok (), st)
  | i :: rest =>
    match NoNoneStore.getitem st.vwtask i with
    | (.error e, s) => (.error e, { st with vwtask := s })
    | (.ok _, s) => loadLoop { st with vwtask := s } rest

/-- `TaskCache.load_vwtasks`.  Saves the old authority flag, sets the new one,
scans every buffer line through the wrapper store, and restores the old flag
afterwards.  There is no `try`/`finally`: the restoring assignment is only
reached when the scan completes, so an exception mid-scan propagates with the
flag still holding the argument value. -/
def load_vwtasks (st : TaskCache) (buffer_has_authority : Bool) :
    Except PyErr Unit × TaskCache :=
  let old := st.buffer_has_authority
  let st1 := { st with buffer_has_authority := buffer_has_authority }
  match loadLoop st1 (List.range st1.buffer.length) with
  | (.error e, st2) => (.error e, st2)
  | (.ok _, st2) => (.ok (), { st2 with buffer_has_authority := old })

end TaskCache

/-- First scan of `TaskCache.load_tasks`: for each buffer line, match
`regexp.GENERIC_TASK` (the abstract parse function `gtParse`, modelled from
the spec), resolve `self.warriors[match.group('source') or 'default']` (this
happens before the uuid check, so an unconfigured source raises even on a line
without a uuid), skip lines whose uuid group is empty, and collect
`(uuid, connection key)` pairs in line order. -/
def collectRawTaskInfo (gtParse : String → Option GTMatch)
    (warriors : List (String × Warrior)) :
    List String → Except PyErr (List (String × String))
  | [] => .ok []
  | line :: rest =>
    match gtParse line with
    | none => collectRawTaskInfo gtParse warriors rest
    | some m =>
      match warriorsGet warriors (m.source.getD "default") with
      | .error e => .error e
      | .ok tw =>
        match m.uuid with
        | none => collectRawTaskInfo gtParse warriors rest
        | some u =>
          match collectRawTaskInfo gtParse warriors rest with
          | .error e => .error e
          | .ok raw => .ok ((u, tw.name) :: raw)

/-- Second phase of `TaskCache.load_tasks`: one iteration per configured
connection.  For a connection with a non-empty uuid list the source builds
`tasks = tw.tasks.filter()` and then `tasks = tasks.filter(uuid=uuid)` for
each uuid; tasklib (external dependency) accumulates these as conjoined
conditions on one lazy query set, and iterating it executes a single external
query returning the tasks that satisfy every accumulated uuid condition.
Each returned task is written to the task store under
`ShortUUID(task['uuid'], tw)`.  The result records the final task store and,
per executed query, the connection key with the accumulated uuid conditions. -/
def runWarriorQueries (raw : List (String × String))
    (store : List (TaskKey × Option TWTask)) :
    List (String × Warrior) →
      List (TaskKey × Option TWTask) × List (String × List String)
  | [] => (store, [])
  | (wname, tw) :: rest =>
    let uuids := (raw.filter (fun r => r.2 = wname)).map Prod.fst
    if uuids.isEmpty then runWarriorQueries raw store rest
    else
      let results := tw.tasks.filter (fun t => uuids.all (fun u => t.uuid = u))
      let store1 := results.foldl
        (fun s t => (NoNoneStore.setitem s (t.uuid, wname) (some t)).2) store
      let r := runWarriorQueries raw store1 rest
      (r.1, (wname, uuids) :: r.2)

/-- `TaskCache.load_tasks` (the batch identity load): collect the referenced
identities, then run at most one query per configured connection and populate
the task store with every task those queries return. -/
def load_tasks (gtParse : String → Option GTMatch)
    (warriors : List (String × Warrior)) (buffer : List String)
    (store : List (TaskKey × Option TWTask)) :
    Except PyErr (List (TaskKey × Option TWTask) × List (String × List String)) :=
  match collectRawTaskInfo gtParse warriors buffer with
  | .error e => .error e
  | .ok raw => .ok (runWarriorQueries raw store warriors)

/-- The dict comprehension opening `TaskCache.vimwikitask_dependency_order`:
`{k: v for k, v in self.vwtask.iteritems() if v is not None}` — the working
set of materialized (non-`None`) wrapper entries, read straight off the
backing dict, in insertion order. -/
def depFilter (store : List (Nat × Option VwTask)) : List (Nat × VwTask) :=
  store.filterMap (fun p => p.2.map (fun w => (p.1, w)))

/-- The removal test of the dependency-order scan:
`all([t['line_number'] not in iterated_cache.keys() for t in
task.add_dependencies])` — every dependency's line number is absent from the
current working set. -/
def VwTask.removable (cur : List (Nat × VwTask)) (w : VwTask) : Bool :=
  w.add_dependencies.all (fun d => (alookup cur d).isNone)

/-- One `for key in list(iterated_cache.keys()):` pass of
`vimwikitask_dependency_order`, iterating over the snapshot of keys taken at
the start of the pass while the working set is mutated underneath: a key whose
task's dependencies are all absent from the *current* working set is deleted
and its task yielded.  The `none` branch (key vanished from the dict before
its turn) cannot occur for a dict's unique keys — only the visited key is ever
deleted — and is skipped for totality. -/
def passAux : List Nat → List (Nat × VwTask) → List VwTask × List (Nat × VwTask)
  | [], cur => ([], cur)
  | k :: rest, cur =>
    match alookup cur k with
    | none => passAux rest cur
    | some w =>
      if w.removable cur then
        (w :: (passAux rest (aerase cur k)).1, (passAux rest (aerase cur k)).2)
      else passAux rest cur

/-- One full pass of the `while` loop: iterate over the key snapshot of the
current working set. -/
def passOnce (cur : List (Nat × VwTask)) :
    List VwTask × List (Nat × VwTask) :=
  passAux (akeys cur) cur

/-- The `while iterated_cache.keys():` loop of
`vimwikitask_dependency_order`, with an explicit pass counter: `fuel` bounds
the number of full passes still allowed, and a `none` result means the loop
has not emptied its working set within that many passes.  (The source loop
has no such counter: it simply keeps rescanning, so a working set on which a
pass makes no progress keeps it spinning forever — see
`depOrderGo_stalled_pass`.) -/
def depOrderGo (fuel : Nat) (cur : List (Nat × VwTask)) :
    Option (List VwTask) :=
  match cur, fuel with
  | [], _ => some []
  | _ :: _, 0 => none
  | c :: cs, fuel + 1 =>
    (depOrderGo fuel (passOnce (c :: cs)).2).map
      (fun l => (passOnce (c :: cs)).1 ++ l)

/-- `TaskCache.vimwikitask_dependency_order`, run with enough fuel for any
terminating execution: on an acyclic working set every pass removes at least
one entry, so `size` passes always suffice; a `none` result signals the
divergence of the source's unbounded loop. -/
def vimwikitask_dependency_order (store : List (Nat × Option VwTask)) :
    Option (List VwTask) :=
  depOrderGo (depFilter store).length (depFilter store)

/-- The direct dependency relation of a working set: `depRel c d k` holds when
the entry keyed `k` lists `d` among its dependencies' line numbers.  The
working set forms a DAG exactly when this relation is well-founded. -/
def depRel (c : List (Nat × VwTask)) (d k : Nat) : Prop :=
  ∃ w, (k, w) ∈ c ∧ d ∈ w.add_dependencies

/-- The central consistency invariant of the position cache: every
materialized wrapper's stored `line_number` equals the dict key it is filed
under, and the dict keys (hence the materialized wrappers' line numbers) are
pairwise distinct, so at most one wrapper occupies any line number. -/
def CacheInv (st : TaskCache) : Prop :=
  (∀ p ∈ st.vwtask, ∀ w, p.2 = some w → w.line_number = p.1) ∧
    (akeys st.vwtask).Nodup

instance decEntryConsistent : (p : Nat × Option VwTask) →
    Decidable (∀ w, p.2 = some w → w.line_number = p.1)
  | (_, none) => isTrue (by intro w hw; cases hw)
  | (k, some w0) =>
    if hl : w0.line_number = k then
      isTrue (by intro w hw; cases hw; exact hl)
    else isFalse (fun H => hl (H w0 rfl))

instance decCacheInv (st : TaskCache) : Decidable (CacheInv st) :=
  inferInstanceAs (Decidable (_ ∧ _))

/-- A structural edit as issued to the Orchestrator; used to state the
invariant over arbitrary finite sequences of edits. -/
inductive EditOp where
  | ins (line : String) (pos : Nat)
  | rem (pos : Nat)
  | swap (pos1 pos2 : Nat)
  deriving DecidableEq, Repr

/-- The state left behind by one structural edit (whether or not the call
raised: the caller keeps the cache object either way). -/
def applyOp (st : TaskCache) : EditOp → TaskCache
  | .ins line pos => (st.insert_line line pos).2
  | .rem pos => (st.remove_line pos).2
  | .swap p1 p2 => (st.swap_lines p1 p2).2

/-- The state after a finite sequence of structural edits. -/
def applyOps (st : TaskCache) (ops : List EditOp) : TaskCache :=
  ops.foldl applyOp st

/-- The source's `while` loop never finishes on this working set: no pass
count empties it.  (In the fuel-free source this is non-termination of
`vimwikitask_dependency_order`, hence of `save_tasks`.) -/
def DivergesOn (cur : List (Nat × VwTask)) : Prop :=
  ∀ fuel, depOrderGo fuel cur = none

/-- The external store call the spec prescribes for the batch load
(`filter_by_uuids(set<uuid>) -> set<Task>`): return exactly the tasks whose
uuid belongs to the requested set.  Stated from the spec's words, for
comparison with the query the source actually issues. -/
def specFilterByUuids (tw : Warrior) (uuids : List String) : List TWTask :=
  tw.tasks.filter (fun t => uuids.contains t.uuid)

/-- A concrete instance of the external line parser (the spec's
`parse_identity`): recognizes the two fixture lines referencing uuids `a`
and `b` on the default connection. -/
def gtParseToy (line : String) : Option GTMatch :=
  if line = "task a" then some ⟨none, some "a"⟩
  else if line = "task b" then some ⟨none, some "b"⟩
  else none

/-- A single configured connection (`default`) whose external store holds the
two tasks with uuids `a` and `b`. -/
def warriorsAB : List (String × Warrior) :=
  [("default", ⟨"default", [⟨"a"⟩, ⟨"b"⟩]⟩)]

/-- A two-line document referencing the two distinct uuids `a` and `b`, both
resolving to the default connection. -/
def bufferAB : List String := ["task a", "task b"]

/-- A cache with three buffer lines and materialized, consistent wrappers at
positions 0, 1 and 2. -/
def cacheThree : TaskCache :=
  { buffer := ["l0", "l1", "l2"]
    vwtask := [(0, some ⟨0, []⟩), (1, some ⟨1, []⟩), (2, some ⟨2, []⟩)]
    task := []
    buffer_has_authority := true }

/-- A cache with one buffer line, empty stores, and the authority flag in its
initial `True` state. -/
def cacheOneLine : TaskCache :=
  { buffer := ["some line"]
    vwtask := []
    task := []
    buffer_has_authority := true }

/-- A consistent two-wrapper cache (wrapper at line 1 depends on line 0),
used to exercise the invariant and the dependency order. -/
def cacheTwoDep : TaskCache :=
  { buffer := ["line a", "line b"]
    vwtask := [(0, some ⟨0, []⟩), (1, some ⟨1, [0]⟩)]
    task := []
    buffer_has_authority := true }

/-- A working set whose two wrappers depend on each other: the dependency
relation has a cycle. -/
def cycleStore : List (Nat × Option VwTask) :=
  [(0, some ⟨0, [1]⟩), (1, some ⟨1, [0]⟩)]

/-- A store with one materialized wrapper whose dependencies point at a line
holding a `None` entry (7) and at a line that was never materialized (99). -/
def freeDepStore : List (Nat × Option VwTask) :=
  [(5, some ⟨5, [7, 99]⟩), (7, none)]

/-- The working set's dependency relation contains a cycle: a nonempty set of
keys `C` each of whose members is present in the working set and lists
another member of `C` among its dependencies' line numbers.  The keys of any
genuine dependency cycle `k1 -> k2 -> ... -> k1` among materialized wrappers
form such a set, and conversely each member of such a set always has a
dependency still present, so it is never removable. -/
def HasCycle (cur : List (Nat × VwTask)) : Prop :=
  ∃ C : List Nat, C ≠ [] ∧ ∀ k ∈ C,
    ∃ w, alookup cur k = some w ∧ ∃ d ∈ w.add_dependencies, d ∈ C

/-- A store mixing a removable wrapper (line 2, no dependencies) with a
two-wrapper dependency cycle between lines 0 and 1: the first pass yields the
wrapper at line 2, and the loop then spins on the remaining cycle. -/
def mixedCycleStore : List (Nat × Option VwTask) :=
  [(0, some ⟨0, [1]⟩), (1, some ⟨1, [0]⟩), (2, some ⟨2, []⟩)]


section AssocLemmas

variable {κ α : Type} [DecidableEq κ]

theorem alookup_mem {l : List (κ × α)} {k : κ} {v : α}
    (h : alookup l k = some v) : (k, v) ∈ l := by
  induction l with
  | nil => simp [alookup] at h
  | cons p ps ih =>
    rw [alookup] at h
    by_cases hk : p.1 = k
    · rw [if_pos hk] at h
      cases h
      cases p with
      | mk a b =>
        cases hk
        exact List.mem_cons_self _ _
    · rw [if_neg hk] at h
      exact List.mem_cons_of_mem _ (ih h)

theorem alookup_eq_none {l : List (κ × α)} {k : κ} :
    alookup l k = none ↔ k ∉ akeys l := by
  induction l with
  | nil => simp [alookup, akeys]
  | cons p ps ih =>
    rw [alookup, akeys]
    by_cases hk : p.1 = k
    · simp [hk]
    · simp only [if_neg hk, List.map_cons, List.mem_cons, ih]
      constructor
      · rintro h (h1 | h2)
        · exact hk h1.symm
        · exact h h2
      · intro h hm
        exact h (Or.inr hm)

theorem mem_akeys_of_lookup {l : List (κ × α)} {k : κ} {v : α}
    (h : alookup l k = some v) : k ∈ akeys l := by
  by_contra hk
  rw [← alookup_eq_none] at hk
  rw [h] at hk
  cases hk

theorem alookup_of_mem_nodup {l : List (κ × α)} {k : κ} {v : α}
    (hm : (k, v) ∈ l) (hnd : (akeys l).Nodup) : alookup l k = some v := by
  induction l with
  | nil => cases hm
  | cons p ps ih =>
    rw [akeys, List.map_cons, List.nodup_cons] at hnd
    rcases List.mem_cons.mp hm with h | h
    · cases h
      rw [alookup, if_pos rfl]
    · have hk : p.1 ≠ k := by
        intro hpk
        exact hnd.1 (hpk ▸ (List.mem_map.mpr ⟨(k, v), h, rfl⟩))
      rw [alookup, if_neg hk]
      exact ih h hnd.2

theorem aerase_sublist (l : List (κ × α)) (k : κ) :
    List.Sublist (aerase l k) l :=
  List.filter_sublist l

theorem aerase_cons_self {p : κ × α} {ps : List (κ × α)} {k : κ}
    (hp : p.1 = k) : aerase (p :: ps) k = aerase ps k := by
  simp [aerase, List.filter, hp]

theorem aerase_cons_ne {p : κ × α} {ps : List (κ × α)} {k : κ}
    (hp : p.1 ≠ k) : aerase (p :: ps) k = p :: aerase ps k := by
  simp [aerase, List.filter, hp]

theorem alookup_aerase_ne {l : List (κ × α)} {k k' : κ} (h : k' ≠ k) :
    alookup (aerase l k) k' = alookup l k' := by
  induction l with
  | nil => rfl
  | cons p ps ih =>
    by_cases hp : p.1 = k
    · have hne : p.1 ≠ k' := fun hpk => h (hpk ▸ hp)
      rw [aerase_cons_self hp, ih, alookup, if_neg hne]
    · rw [aerase_cons_ne hp, alookup, alookup]
      by_cases hpk : p.1 = k'
      · rw [if_pos hpk, if_pos hpk]
      · rw [if_neg hpk, if_neg hpk, ih]

theorem alookup_none_of_sublist {l' l : List (κ × α)} {k : κ}
    (hs : List.Sublist l' l) (h : alookup l k = none) :
    alookup l' k = none := by
  rw [alookup_eq_none] at h ⊢
  exact fun hm => h ((hs.map Prod.fst).subset hm)

theorem nodup_akeys_of_sublist {l' l : List (κ × α)}
    (hs : List.Sublist l' l) (h : (akeys l).Nodup) : (akeys l').Nodup :=
  h.sublist (hs.map Prod.fst)

theorem mem_akeys_aerase_of_ne {l : List (κ × α)} {d k : κ}
    (hd : d ∈ akeys l) (hne : d ≠ k) : d ∈ akeys (aerase l k) := by
  rcases List.mem_map.mp hd with ⟨p, hp, hpd⟩
  refine List.mem_map.mpr ⟨p, ?_, hpd⟩
  simp only [aerase, List.mem_filter, decide_eq_true_eq]
  exact ⟨hp, fun hpk => hne (hpd ▸ hpk ▸ rfl)⟩

theorem eq_of_mem_akeys_not_mem_aerase {l : List (κ × α)} {d k : κ}
    (hd : d ∈ akeys l) (hnd : d ∉ akeys (aerase l k)) : d = k := by
  by_contra hne
  exact hnd (mem_akeys_aerase_of_ne hd hne)

theorem length_aerase_lt_of_mem {l : List (κ × α)} {k : κ}
    (h : k ∈ akeys l) : (aerase l k).length < l.length := by
  induction l with
  | nil => cases h
  | cons p ps ih =>
    by_cases hp : p.1 = k
    · rw [aerase_cons_self hp]
      calc (aerase ps k).length ≤ ps.length := (aerase_sublist ps k).length_le
        _ < (p :: ps).length := Nat.lt_succ_self _
    · have hk : k ∈ akeys ps := by
        rcases List.mem_cons.mp h with h1 | h1
        · exact absurd h1.symm hp
        · exact h1
      rw [aerase_cons_ne hp]
      exact Nat.succ_lt_succ (ih hk)

theorem perm_cons_aerase {l : List (κ × α)} {k : κ} {v : α}
    (hnd : (akeys l).Nodup) (h : alookup l k = some v) :
    List.Perm l ((k, v) :: aerase l k) := by
  induction l with
  | nil => simp [alookup] at h
  | cons p ps ih =>
    rw [akeys, List.map_cons, List.nodup_cons] at hnd
    by_cases hp : p.1 = k
    · rw [alookup, if_pos hp] at h
      cases h
      have hkps : k ∉ akeys ps := hp ▸ hnd.1
      have hse : aerase ps k = ps := by
        apply List.filter_eq_self.mpr
        intro q hq
        simp only [decide_eq_true_eq]
        intro hqk
        exact hkps (hqk ▸ List.mem_map.mpr ⟨q, hq, rfl⟩)
      rw [aerase_cons_self hp, hse]
      cases p with
      | mk a b =>
        cases hp
        exact List.Perm.refl _
    · rw [alookup, if_neg hp] at h
      rw [aerase_cons_ne hp]
      exact ((ih hnd.2 h).cons p).trans (List.Perm.swap (k, v) p _)

end AssocLemmas

theorem removable_iff {cur : List (Nat × VwTask)} {w : VwTask} :
    w.removable cur = true ↔ ∀ d ∈ w.add_dependencies, alookup cur d = none := by
  simp [VwTask.removable, List.all_eq_true, Option.isNone_iff_eq_none]

theorem passAux_cons_none {cur : List (Nat × VwTask)} {k0 : Nat}
    {rest : List Nat} (h : alookup cur k0 = none) :
    passAux (k0 :: rest) cur = passAux rest cur := by
  rw [passAux, h]

theorem passAux_cons_removable {cur : List (Nat × VwTask)} {k0 : Nat}
    {rest : List Nat} {w0 : VwTask} (h : alookup cur k0 = some w0)
    (hr : w0.removable cur = true) :
    passAux (k0 :: rest) cur =
      (w0 :: (passAux rest (aerase cur k0)).1,
        (passAux rest (aerase cur k0)).2) := by
  rw [passAux, h]
  show (if w0.removable cur = true then
      (w0 :: (passAux rest (aerase cur k0)).1,
        (passAux rest (aerase cur k0)).2)
    else passAux rest cur) = _
  rw [if_pos hr]

theorem passAux_cons_stuck {cur : List (Nat × VwTask)} {k0 : Nat}
    {rest : List Nat} {w0 : VwTask} (h : alookup cur k0 = some w0)
    (hr : ¬ w0.removable cur = true) :
    passAux (k0 :: rest) cur = passAux rest cur := by
  rw [passAux, h]
  show (if w0.removable cur = true then
      (w0 :: (passAux rest (aerase cur k0)).1,
        (passAux rest (aerase cur k0)).2)
    else passAux rest cur) = _
  rw [if_neg hr]

theorem passAux_sublist (snap : List Nat) :
    ∀ cur, List.Sublist (passAux snap cur).2 cur := by
  induction snap with
  | nil =>
    intro cur
    rw [passAux]
  | cons k0 rest ih =>
    intro cur
    cases h0 : alookup cur k0 with
    | none =>
      rw [passAux_cons_none h0]
      exact ih cur
    | some w0 =>
      by_cases hr : w0.removable cur = true
      · rw [passAux_cons_removable h0 hr]
        exact (ih (aerase cur k0)).trans (aerase_sublist cur k0)
      · rw [passAux_cons_stuck h0 hr]
        exact ih cur

theorem passAux_perm (snap : List Nat) :
    ∀ cur, (akeys cur).Nodup →
      List.Perm ((passAux snap cur).1 ++ (passAux snap cur).2.map Prod.snd)
        (cur.map Prod.snd) := by
  induction snap with
  | nil =>
    intro cur _
    rw [passAux]
    simp
  | cons k0 rest ih =>
    intro cur hnd
    cases h0 : alookup cur k0 with
    | none =>
      rw [passAux_cons_none h0]
      exact ih cur hnd
    | some w0 =>
      by_cases hr : w0.removable cur = true
      · rw [passAux_cons_removable h0 hr]
        have h1 := ih (aerase cur k0)
          (nodup_akeys_of_sublist (aerase_sublist cur k0) hnd)
        have h2 : List.Perm (cur.map Prod.snd)
            (w0 :: (aerase cur k0).map Prod.snd) := by
          have h3 := (perm_cons_aerase hnd h0).map Prod.snd
          simpa using h3
        refine List.Perm.trans ?_ h2.symm
        rw [List.cons_append]
        exact h1.cons w0
      · rw [passAux_cons_stuck h0 hr]
        exact ih cur hnd

theorem passAux_mem_yield (snap : List Nat) :
    ∀ cur (k : Nat) (w : VwTask), k ∈ snap → alookup cur k = some w →
      (∀ d ∈ w.add_dependencies, alookup cur d = none) →
      w ∈ (passAux snap cur).1 := by
  induction snap with
  | nil =>
    intro cur k w hk _ _
    cases hk
  | cons k0 rest ih =>
    intro cur k w hk hlk hdeps
    by_cases hk0 : k0 = k
    · subst hk0
      rw [passAux_cons_removable hlk (removable_iff.mpr hdeps)]
      exact List.mem_cons_self _ _
    · have hkr : k ∈ rest := by
        rcases List.mem_cons.mp hk with h | h
        · exact absurd h.symm hk0
        · exact h
      cases h0 : alookup cur k0 with
      | none =>
        rw [passAux_cons_none h0]
        exact ih cur k w hkr hlk hdeps
      | some w0 =>
        by_cases hr : w0.removable cur = true
        · rw [passAux_cons_removable h0 hr]
          have hlk' : alookup (aerase cur k0) k = some w := by
            rw [alookup_aerase_ne (fun he => hk0 he.symm)]
            exact hlk
          have hdeps' : ∀ d ∈ w.add_dependencies,
              alookup (aerase cur k0) d = none :=
            fun d hd =>
              alookup_none_of_sublist (aerase_sublist cur k0) (hdeps d hd)
          exact List.mem_cons_of_mem _
            (ih (aerase cur k0) k w hkr hlk' hdeps')
        · rw [passAux_cons_stuck h0 hr]
          exact ih cur k w hkr hlk hdeps

theorem passAux_progress (snap : List Nat) :
    ∀ cur (m : Nat) (w : VwTask), m ∈ snap → alookup cur m = some w →
      (∀ d ∈ w.add_dependencies, alookup cur d = none) →
      (passAux snap cur).2.length < cur.length := by
  induction snap with
  | nil =>
    intro cur m w hm _ _
    cases hm
  | cons k0 rest ih =>
    intro cur m w hm hlm hdeps
    by_cases hk0 : k0 = m
    · subst hk0
      rw [passAux_cons_removable hlm (removable_iff.mpr hdeps)]
      calc (passAux rest (aerase cur k0)).2.length
          ≤ (aerase cur k0).length := (passAux_sublist rest _).length_le
        _ < cur.length := length_aerase_lt_of_mem (mem_akeys_of_lookup hlm)
    · have hmr : m ∈ rest := by
        rcases List.mem_cons.mp hm with h | h
        · exact absurd h.symm hk0
        · exact h
      cases h0 : alookup cur k0 with
      | none =>
        rw [passAux_cons_none h0]
        exact ih cur m w hmr hlm hdeps
      | some w0 =>
        by_cases hr : w0.removable cur = true
        · rw [passAux_cons_removable h0 hr]
          have hlt : (passAux rest (aerase cur k0)).2.length
              < (aerase cur k0).length := by
            refine ih (aerase cur k0) m w hmr ?_ ?_
            · rw [alookup_aerase_ne (fun he => hk0 he.symm)]
              exact hlm
            · exact fun d hd =>
                alookup_none_of_sublist (aerase_sublist cur k0) (hdeps d hd)
          exact hlt.trans_le (aerase_sublist cur k0).length_le
        · rw [passAux_cons_stuck h0 hr]
          exact ih cur m w hmr hlm hdeps

theorem passAux_deleted_yielded (snap : List Nat) :
    ∀ cur, (∀ p ∈ cur, (p.2 : VwTask).line_number = p.1) →
      ∀ d, d ∈ akeys cur → d ∉ akeys (passAux snap cur).2 →
      ∃ w', w' ∈ (passAux snap cur).1 ∧ w'.line_number = d := by
  induction snap with
  | nil =>
    intro cur _ d hd hnotin
    rw [passAux] at hnotin
    exact absurd hd hnotin
  | cons k0 rest ih =>
    intro cur hcons d hd hnotin
    cases h0 : alookup cur k0 with
    | none =>
      rw [passAux_cons_none h0] at hnotin ⊢
      exact ih cur hcons d hd hnotin
    | some w0 =>
      by_cases hr : w0.removable cur = true
      · rw [passAux_cons_removable h0 hr] at hnotin ⊢
        by_cases hdk : d = k0
        · subst hdk
          exact ⟨w0, List.mem_cons_self _ _, hcons (d, w0) (alookup_mem h0)⟩
        · have hd' : d ∈ akeys (aerase cur k0) := mem_akeys_aerase_of_ne hd hdk
          have hcons' : ∀ p ∈ aerase cur k0, (p.2 : VwTask).line_number = p.1 :=
            fun p hp => hcons p ((aerase_sublist cur k0).subset hp)
          rcases ih (aerase cur k0) hcons' d hd' hnotin with ⟨w', hw', hl⟩
          exact ⟨w', List.mem_cons_of_mem _ hw', hl⟩
      · rw [passAux_cons_stuck h0 hr] at hnotin ⊢
        exact ih cur hcons d hd hnotin

theorem passAux_yield_order (snap : List Nat) :
    ∀ cur, (∀ p ∈ cur, (p.2 : VwTask).line_number = p.1) →
      ∀ l1 w l2, (passAux snap cur).1 = l1 ++ w :: l2 →
      ∀ d ∈ w.add_dependencies, d ∈ akeys cur →
      ∃ w', w' ∈ l1 ∧ w'.line_number = d := by
  induction snap with
  | nil =>
    intro cur _ l1 w l2 hsplit _ _ _
    rw [passAux] at hsplit
    exact (List.cons_ne_nil w l2 (List.append_eq_nil.mp hsplit.symm).2).elim
  | cons k0 rest ih =>
    intro cur hcons l1 w l2 hsplit d hd hdk
    cases h0 : alookup cur k0 with
    | none =>
      rw [passAux_cons_none h0] at hsplit
      exact ih cur hcons l1 w l2 hsplit d hd hdk
    | some w0 =>
      by_cases hr : w0.removable cur = true
      · rw [passAux_cons_removable h0 hr] at hsplit
        have hcons' : ∀ p ∈ aerase cur k0, (p.2 : VwTask).line_number = p.1 :=
          fun p hp => hcons p ((aerase_sublist cur k0).subset hp)
        cases l1 with
        | nil =>
          simp only [List.nil_append] at hsplit
          have hw : w0 = w := by
            have h5 := congrArg List.head? hsplit
            simpa using h5
          cases hw
          have hnone := removable_iff.mp hr d hd
          rw [alookup_eq_none] at hnone
          exact absurd hdk hnone
        | cons w1 l1' =>
          simp only [List.cons_append] at hsplit
          have hw1 : w0 = w1 := by
            have h5 := congrArg List.head? hsplit
            simpa using h5
          subst hw1
          have htail : (passAux rest (aerase cur k0)).1 = l1' ++ w :: l2 := by
            have h6 := congrArg List.tail hsplit
            simpa using h6
          by_cases hdk' : d ∈ akeys (aerase cur k0)
          · rcases ih (aerase cur k0) hcons' l1' w l2 htail d hd hdk' with
              ⟨w', hw', hl⟩
            exact ⟨w', List.mem_cons_of_mem _ hw', hl⟩
          · have hdk0 : d = k0 := eq_of_mem_akeys_not_mem_aerase hdk hdk'
            subst hdk0
            exact ⟨w0, List.mem_cons_self _ _, hcons (d, w0) (alookup_mem h0)⟩
      · rw [passAux_cons_stuck h0 hr] at hsplit
        exact ih cur hcons l1 w l2 hsplit d hd hdk

theorem passOnce_eq (cur : List (Nat × VwTask)) :
    passOnce cur = passAux (akeys cur) cur := rfl

theorem depOrderGo_nil (fuel : Nat) : depOrderGo fuel [] = some [] := by
  cases fuel <;> rfl

theorem depOrderGo_zero_cons (c : Nat × VwTask) (cs : List (Nat × VwTask)) :
    depOrderGo 0 (c :: cs) = none := rfl

theorem depOrderGo_succ_cons (fuel : Nat) (c : Nat × VwTask)
    (cs : List (Nat × VwTask)) :
    depOrderGo (fuel + 1) (c :: cs) =
      (depOrderGo fuel (passOnce (c :: cs)).2).map
        (fun l => (passOnce (c :: cs)).1 ++ l) := rfl

theorem depOrderGo_stalled_pass (cur : List (Nat × VwTask)) (hne : cur ≠ [])
    (hstall : passOnce cur = ([], cur)) :
    ∀ fuel, depOrderGo fuel cur = none := by
  intro fuel
  induction fuel with
  | zero =>
    cases cur with
    | nil => exact absurd rfl hne
    | cons c cs => exact depOrderGo_zero_cons c cs
  | succ f ihf =>
    cases cur with
    | nil => exact absurd rfl hne
    | cons c cs =>
      rw [depOrderGo_succ_cons, hstall]
      rw [show (([], c :: cs) :
          List VwTask × List (Nat × VwTask)).2 = c :: cs from rfl, ihf]
      rfl

theorem depOrderGo_dag_completes (c : List (Nat × VwTask))
    (hwf : WellFounded (depRel c)) :
    ∀ fuel cur, (∀ p ∈ cur, p ∈ c) → cur.length ≤ fuel →
      ∃ l, depOrderGo fuel cur = some l := by
  intro fuel
  induction fuel with
  | zero =>
    intro cur _ hlen
    have hc : cur = [] := List.length_eq_zero.mp (Nat.le_zero.mp hlen)
    subst hc
    exact ⟨[], rfl⟩
  | succ f ihf =>
    intro cur hsub hlen
    cases cur with
    | nil => exact ⟨[], rfl⟩
    | cons c0 cs =>
      obtain ⟨m, hmS, hmin⟩ := hwf.has_min {k | k ∈ akeys (c0 :: cs)}
        ⟨c0.1, by simp [akeys]⟩
      obtain ⟨w, hw⟩ : ∃ w, alookup (c0 :: cs) m = some w := by
        cases hl : alookup (c0 :: cs) m with
        | none =>
          rw [alookup_eq_none] at hl
          exact absurd hmS hl
        | some w => exact ⟨w, rfl⟩
      have hdeps : ∀ d ∈ w.add_dependencies, alookup (c0 :: cs) d = none := by
        intro d hd
        cases hl : alookup (c0 :: cs) d with
        | none => rfl
        | some wd =>
          exact absurd ⟨w, hsub (m, w) (alookup_mem hw), hd⟩
            (hmin d (mem_akeys_of_lookup hl))
      have hprog : (passOnce (c0 :: cs)).2.length < (c0 :: cs).length :=
        passAux_progress (akeys (c0 :: cs)) (c0 :: cs) m w hmS hw hdeps
      have hsub2 : ∀ p ∈ (passOnce (c0 :: cs)).2, p ∈ c :=
        fun p hp => hsub p ((passAux_sublist _ _).subset hp)
      have hlen2 : (passOnce (c0 :: cs)).2.length ≤ f := by
        have := hlen
        simp only [List.length_cons] at this
        omega
      obtain ⟨l2, hl2⟩ := ihf (passOnce (c0 :: cs)).2 hsub2 hlen2
      refine ⟨(passOnce (c0 :: cs)).1 ++ l2, ?_⟩
      rw [depOrderGo_succ_cons, hl2]
      rfl

theorem depOrderGo_perm :
    ∀ fuel cur (l : List VwTask), (akeys cur).Nodup →
      depOrderGo fuel cur = some l → List.Perm l (cur.map Prod.snd) := by
  intro fuel
  induction fuel with
  | zero =>
    intro cur l _ h
    cases cur with
    | nil =>
      have h9 : some ([] : List VwTask) = some l := h
      cases h9
      simp
    | cons c0 cs =>
      have h9 : (none : Option (List VwTask)) = some l := h
      cases h9
  | succ f ihf =>
    intro cur l hnd h
    cases cur with
    | nil =>
      have h9 : some ([] : List VwTask) = some l := h
      cases h9
      simp
    | cons c0 cs =>
      rw [depOrderGo_succ_cons] at h
      cases hgo : depOrderGo f (passOnce (c0 :: cs)).2 with
      | none =>
        rw [hgo] at h
        exact absurd h (by simp)
      | some l2 =>
        rw [hgo] at h
        have h9 : some ((passOnce (c0 :: cs)).1 ++ l2) = some l := h
        cases h9
        have hnd2 : (akeys (passOnce (c0 :: cs)).2).Nodup :=
          nodup_akeys_of_sublist (passAux_sublist _ _) hnd
        have hperm2 := ihf (passOnce (c0 :: cs)).2 l2 hnd2 hgo
        have hpass := passAux_perm (akeys (c0 :: cs)) (c0 :: cs) hnd
        exact (List.Perm.append_left _ hperm2).trans hpass

theorem depOrderGo_order :
    ∀ fuel cur (l : List VwTask), (akeys cur).Nodup →
      (∀ p ∈ cur, (p.2 : VwTask).line_number = p.1) →
      depOrderGo fuel cur = some l →
      ∀ l1 w l2, l = l1 ++ w :: l2 → ∀ d ∈ w.add_dependencies,
      d ∈ akeys cur → ∃ w', w' ∈ l1 ∧ w'.line_number = d := by
  intro fuel
  induction fuel with
  | zero =>
    intro cur l _ _ h l1 w l2 hsplit _ _ _
    cases cur with
    | nil =>
      have h9 : some ([] : List VwTask) = some l := h
      cases h9
      exact (List.cons_ne_nil w l2 (List.append_eq_nil.mp hsplit.symm).2).elim
    | cons c0 cs =>
      have h9 : (none : Option (List VwTask)) = some l := h
      cases h9
  | succ f ihf =>
    intro cur l hnd hcons h l1 w l2 hsplit d hd hdk
    cases cur with
    | nil =>
      have h9 : some ([] : List VwTask) = some l := h
      cases h9
      exact (List.cons_ne_nil w l2 (List.append_eq_nil.mp hsplit.symm).2).elim
    | cons c0 cs =>
      rw [depOrderGo_succ_cons] at h
      cases hgo : depOrderGo f (passOnce (c0 :: cs)).2 with
      | none =>
        rw [hgo] at h
        exact absurd h (by simp)
      | some lr =>
        rw [hgo] at h
        have h9 : some ((passOnce (c0 :: cs)).1 ++ lr) = some l := h
        cases h9
        have hnd2 : (akeys (passOnce (c0 :: cs)).2).Nodup :=
          nodup_akeys_of_sublist (passAux_sublist _ _) hnd
        have hcons2 : ∀ p ∈ (passOnce (c0 :: cs)).2,
            (p.2 : VwTask).line_number = p.1 :=
          fun p hp => hcons p ((passAux_sublist _ _).subset hp)
        rcases List.append_eq_append_iff.mp hsplit with
          ⟨a9, ha1, ha2⟩ | ⟨c9, hc1, hc2⟩
        · by_cases hd2 : d ∈ akeys (passOnce (c0 :: cs)).2
          · rcases ihf (passOnce (c0 :: cs)).2 lr hnd2 hcons2 hgo a9 w l2 ha2
              d hd hd2 with ⟨w', hw', hl⟩
            refine ⟨w', ?_, hl⟩
            rw [ha1]
            exact List.mem_append.mpr (Or.inr hw')
          · rcases passAux_deleted_yielded (akeys (c0 :: cs)) (c0 :: cs) hcons
              d hdk hd2 with ⟨w', hw', hl⟩
            refine ⟨w', ?_, hl⟩
            rw [ha1]
            exact List.mem_append.mpr (Or.inl hw')
        · cases c9 with
          | nil =>
            rw [List.append_nil] at hc1
            rw [List.nil_append] at hc2
            by_cases hd2 : d ∈ akeys (passOnce (c0 :: cs)).2
            · rcases ihf (passOnce (c0 :: cs)).2 lr hnd2 hcons2 hgo [] w l2
                hc2.symm d hd hd2 with ⟨w', hw', _⟩
              cases hw'
            · rcases passAux_deleted_yielded (akeys (c0 :: cs)) (c0 :: cs) hcons
                d hdk hd2 with ⟨w', hw', hl⟩
              refine ⟨w', ?_, hl⟩
              rw [← hc1]
              exact hw'
          | cons w1 c99 =>
            injection hc2 with hw1 hl2
            subst hw1
            have hys : (passOnce (c0 :: cs)).1 = l1 ++ w :: c99 := hc1
            exact passAux_yield_order (akeys (c0 :: cs)) (c0 :: cs) hcons
              l1 w c99 hys d hd hdk

theorem mem_depFilter {store : List (Nat × Option VwTask)} {k : Nat}
    {w : VwTask} : (k, w) ∈ depFilter store ↔ (k, some w) ∈ store := by
  constructor
  · intro h
    rcases List.mem_filterMap.mp h with ⟨⟨k9, ow⟩, hmem, hf⟩
    cases ow with
    | none => cases hf
    | some w9 =>
      simp only [Option.map_some'] at hf
      cases hf
      exact hmem
  · intro h
    exact List.mem_filterMap.mpr ⟨(k, some w), h, rfl⟩

theorem akeys_depFilter_sublist (store : List (Nat × Option VwTask)) :
    List.Sublist (akeys (depFilter store)) (akeys store) := by
  induction store with
  | nil => exact List.Sublist.refl _
  | cons p rest ih =>
    rcases p with ⟨k, ow⟩
    cases ow with
    | none =>
      have he : depFilter ((k, none) :: rest) = depFilter rest := rfl
      rw [he]
      exact List.Sublist.cons _ ih
    | some w =>
      have he : depFilter ((k, some w) :: rest) = (k, w) :: depFilter rest := rfl
      rw [he]
      exact List.Sublist.cons₂ k (by exact ih)

theorem getitem_always {κ α : Type} [DecidableEq κ]
    (s : List (κ × Option α)) (k : κ) :
    NoNoneStore.getitem s k = (.error .nameError, s) := by
  unfold NoNoneStore.getitem
  cases (alookup s k).bind id <;> rfl

/-- Claim C1 (code_bug): on a two-line document referencing the two distinct
uuids `a` and `b` of the single configured connection, `load_tasks` issues
exactly one external query for that connection — carrying both uuids as
*conjoined* filter conditions (`tasks.filter(uuid=a).filter(uuid=b)`), which
matches no task — and therefore caches nothing, even though both tasks exist
in the store; the spec's `filter_by_uuids` on the same request would return
both tasks.  The batching bound (one query per connection) holds, but the
query does not request the *set* of uuids and the identity cache is left
empty. -/
theorem load_tasks_conjunctive_query_caches_nothing :
    load_tasks gtParseToy warriorsAB bufferAB [] =
        .ok ([], [("default", ["a", "b"])]) ∧
      specFilterByUuids ⟨"default", [⟨"a"⟩, ⟨"b"⟩]⟩ ["a", "b"] =
        [⟨"a"⟩, ⟨"b"⟩] :=
  ⟨rfl, rfl⟩

theorem insert_line_vwtask_eq (st : TaskCache) (line : String) (pos : Nat) :
    ((st.insert_line line pos).2).vwtask = st.vwtask := by
  unfold TaskCache.insert_line
  cases bufferAppend st.buffer line pos <;> rfl

theorem remove_line_vwtask_eq (st : TaskCache) (pos : Nat) :
    ((st.remove_line pos).2).vwtask = st.vwtask := by
  unfold TaskCache.remove_line
  cases bufferDelete st.buffer pos <;> rfl

theorem swap_lines_vwtask_eq (st : TaskCache) (p1 p2 : Nat) :
    ((st.swap_lines p1 p2).2).vwtask = st.vwtask := by
  unfold TaskCache.swap_lines
  by_cases hb : st.buffer.length ≤ p1 ∨ st.buffer.length ≤ p2
  · rw [if_pos hb]
  · rw [if_neg hb]
    cases (NoNoneStore.getitem st.vwtask p2).1 <;> rfl

theorem applyOp_vwtask_eq (st : TaskCache) (op : EditOp) :
    (applyOp st op).vwtask = st.vwtask := by
  cases op with
  | ins line pos => exact insert_line_vwtask_eq st line pos
  | rem pos => exact remove_line_vwtask_eq st pos
  | swap p1 p2 => exact swap_lines_vwtask_eq st p1 p2

theorem cacheInv_of_vwtask_eq {st st9 : TaskCache}
    (h : st9.vwtask = st.vwtask) (hinv : CacheInv st) : CacheInv st9 := by
  unfold CacheInv at hinv ⊢
  rw [h]
  exact hinv

/-- Claim C2 (confirmed): after any finite sequence of `insert_line`,
`remove_line` and `swap_lines` calls — hence in particular after every single
call — the position cache still satisfies the consistency invariant: every
materialized wrapper's `line_number` equals its cache key, and the keys are
pairwise distinct.  In this source the reason is drastic: all three
operations raise (`AttributeError` on the nonexistent `vimwikitask_cache`
attribute for insert/remove, `NameError` inside `NoNoneStore.__getitem__` for
swap) before ever writing to the wrapper store, so the store and every
wrapper's `line_number` are left exactly as they were. -/
theorem structural_edits_preserve_cache_inv (st : TaskCache)
    (ops : List EditOp) (hinv : CacheInv st) : CacheInv (applyOps st ops) := by
  induction ops generalizing st with
  | nil => exact hinv
  | cons op rest ih =>
    show CacheInv (applyOps (applyOp st op) rest)
    exact ih (applyOp st op) (cacheInv_of_vwtask_eq (applyOp_vwtask_eq st op) hinv)

/-- Witness for `structural_edits_preserve_cache_inv` at a concrete
consistent cache and a concrete edit sequence. -/
theorem structural_edits_preserve_cache_inv_witness :
    CacheInv (applyOps cacheTwoDep
      [EditOp.ins "x" 0, EditOp.rem 5, EditOp.swap 0 1]) :=
  structural_edits_preserve_cache_inv cacheTwoDep
    [EditOp.ins "x" 0, EditOp.rem 5, EditOp.swap 0 1] (by decide)

/-- Claim C3 (confirmed): for a consistently keyed working set of
materialized wrappers whose dependency relation is well-founded (a DAG) and
closed (every dependency is itself materialized in the set),
`vimwikitask_dependency_order` terminates and yields a permutation of the
working set's wrappers — each exactly once — and yields a wrapper only after
a wrapper carrying each of its dependencies' line numbers has already been
yielded. -/
theorem dependency_order_dag_is_topological (store : List (Nat × Option VwTask))
    (hnd : (akeys store).Nodup)
    (hcons : ∀ p ∈ store, ∀ w, p.2 = some w → w.line_number = p.1)
    (hclosed : ∀ p ∈ depFilter store, ∀ d ∈ (p.2 : VwTask).add_dependencies,
      d ∈ akeys (depFilter store))
    (hdag : WellFounded (depRel (depFilter store))) :
    ∃ l, vimwikitask_dependency_order store = some l ∧
      List.Perm l ((depFilter store).map Prod.snd) ∧
      ∀ l1 w l2, l = l1 ++ w :: l2 → ∀ d ∈ w.add_dependencies,
        ∃ w', w' ∈ l1 ∧ w'.line_number = d := by
  have hndf : (akeys (depFilter store)).Nodup :=
    hnd.sublist (akeys_depFilter_sublist store)
  have hconsf : ∀ p ∈ depFilter store, (p.2 : VwTask).line_number = p.1 := by
    intro p hp
    rcases p with ⟨k, w⟩
    exact hcons (k, some w) (mem_depFilter.mp hp) w rfl
  obtain ⟨l, hl⟩ := depOrderGo_dag_completes (depFilter store) hdag
    (depFilter store).length (depFilter store) (fun p hp => hp)
    (Nat.le_refl _)
  have hperm := depOrderGo_perm (depFilter store).length (depFilter store) l
    hndf hl
  refine ⟨l, hl, hperm, ?_⟩
  intro l1 w l2 hsplit d hd
  have hwl : w ∈ l := by
    rw [hsplit]
    exact List.mem_append.mpr (Or.inr (List.mem_cons_self _ _))
  have hwv := hperm.subset hwl
  have hdk : d ∈ akeys (depFilter store) := by
    rcases List.mem_map.mp hwv with ⟨p, hp, hpw⟩
    rcases p with ⟨k9, w9⟩
    cases hpw
    exact hclosed (k9, w9) hp d hd
  exact depOrderGo_order (depFilter store).length (depFilter store) l
    hndf hconsf hl l1 w l2 hsplit d hd hdk

/-- Witness for `dependency_order_dag_is_topological` at a concrete two-entry
working set whose wrapper at line 1 depends on line 0. -/
theorem dependency_order_dag_is_topological_witness :
    ∃ l, vimwikitask_dependency_order cacheTwoDep.vwtask = some l ∧
      List.Perm l ((depFilter cacheTwoDep.vwtask).map Prod.snd) ∧
      ∀ l1 w l2, l = l1 ++ w :: l2 → ∀ d ∈ w.add_dependencies,
        ∃ w', w' ∈ l1 ∧ w'.line_number = d := by
  refine dependency_order_dag_is_topological cacheTwoDep.vwtask
    (by decide) (by decide) (by decide) ?_
  refine Subrelation.wf (r := fun d k : Nat => d < k) ?_ Nat.lt_wfRel.wf
  intro d k hq
  rcases hq with ⟨w, hmem, hd⟩
  have hmem9 : (k, w) ∈
      [((0 : Nat), (⟨0, []⟩ : VwTask)), (1, ⟨1, [0]⟩)] := hmem
  rcases List.mem_cons.mp hmem9 with h1 | h1
  · cases h1
    cases hd
  · rcases List.mem_cons.mp h1 with h2 | h2
    · cases h2
      rcases List.mem_cons.mp hd with h3 | h3
      · cases h3
        exact Nat.zero_lt_one
      · cases h3
    · cases h2

/-- Claim C4 counterexample: on the two-wrapper cyclic working set the full
pass removes nothing, the loop therefore never finishes for any number of
passes (`DivergesOn`), and the fuelled run reports the stall; no
`DependencyCycleError` is raised — no such error exists anywhere in the
source. -/
theorem dependency_order_cycle_never_terminates :
    DivergesOn (depFilter cycleStore) ∧
      passOnce (depFilter cycleStore) = ([], depFilter cycleStore) ∧
      vimwikitask_dependency_order cycleStore = none :=
  ⟨depOrderGo_stalled_pass (depFilter cycleStore) (by decide) rfl, rfl, rfl⟩

theorem passAux_preserves_cycle_entries (snap : List Nat) :
    ∀ cur (C : List Nat),
      (∀ k ∈ C, ∃ w, alookup cur k = some w ∧
        ∃ d ∈ w.add_dependencies, d ∈ C) →
      ∀ k ∈ C, alookup (passAux snap cur).2 k = alookup cur k := by
  induction snap with
  | nil =>
    intro cur C _ k _
    rw [passAux]
  | cons k0 rest ih =>
    intro cur C hC k hk
    cases h0 : alookup cur k0 with
    | none =>
      rw [passAux_cons_none h0]
      exact ih cur C hC k hk
    | some w0 =>
      by_cases hr : w0.removable cur = true
      · have hk0C : k0 ∉ C := by
          intro hmem
          rcases hC k0 hmem with ⟨w, hw, d, hd, hdC⟩
          have hww : w = w0 := Option.some.inj (hw.symm.trans h0)
          subst hww
          rcases hC d hdC with ⟨wd, hwd, _⟩
          rw [removable_iff.mp hr d hd] at hwd
          cases hwd
        rw [passAux_cons_removable h0 hr]
        have hC9 : ∀ k1 ∈ C, ∃ w, alookup (aerase cur k0) k1 = some w ∧
            ∃ d ∈ w.add_dependencies, d ∈ C := by
          intro k1 hk1
          rcases hC k1 hk1 with ⟨w, hw, hd⟩
          refine ⟨w, ?_, hd⟩
          rw [alookup_aerase_ne (fun (he : k1 = k0) => hk0C (he ▸ hk1))]
          exact hw
        rw [ih (aerase cur k0) C hC9 k hk]
        exact alookup_aerase_ne (fun (he : k = k0) => hk0C (he ▸ hk))
      · rw [passAux_cons_stuck h0 hr]
        exact ih cur C hC k hk

theorem hasCycle_ne_nil {cur : List (Nat × VwTask)} (hcy : HasCycle cur) :
    cur ≠ [] := by
  rintro rfl
  rcases hcy with ⟨C, hne, hC⟩
  cases C with
  | nil => exact hne rfl
  | cons k0 C9 =>
    rcases hC k0 (List.mem_cons_self _ _) with ⟨w, hw, _⟩
    cases hw

theorem hasCycle_passOnce {cur : List (Nat × VwTask)} (hcy : HasCycle cur) :
    HasCycle (passOnce cur).2 := by
  rcases hcy with ⟨C, hne, hC⟩
  refine ⟨C, hne, ?_⟩
  intro k hk
  rcases hC k hk with ⟨w, hw, hd⟩
  refine ⟨w, ?_, hd⟩
  rw [passOnce_eq, passAux_preserves_cycle_entries (akeys cur) cur C hC k hk]
  exact hw

theorem depOrderGo_hasCycle_none :
    ∀ fuel (cur : List (Nat × VwTask)), HasCycle cur →
      depOrderGo fuel cur = none := by
  intro fuel
  induction fuel with
  | zero =>
    intro cur hcy
    cases cur with
    | nil => exact absurd rfl (hasCycle_ne_nil hcy)
    | cons c0 cs => exact depOrderGo_zero_cons c0 cs
  | succ f ihf =>
    intro cur hcy
    cases cur with
    | nil => exact absurd rfl (hasCycle_ne_nil hcy)
    | cons c0 cs =>
      rw [depOrderGo_succ_cons,
        ihf (passOnce (c0 :: cs)).2 (hasCycle_passOnce hcy)]
      rfl

/-- Claim C4 as amended: for every working set of materialized wrappers whose
`add_dependencies` relation contains a cycle — whatever else the set holds —
the save-order computation never terminates: a wrapper on the cycle always
has a dependency still present, so it is never removable, every pass keeps
every cycle member, the working set never empties for any pass count
(`DivergesOn`), and the fuelled run reports the stall; the unguarded source
`while` loop rescans forever, and no `DependencyCycleError` is raised — no
such error exists in the code. -/
theorem dependency_order_cycle_diverges (store : List (Nat × Option VwTask))
    (hcy : HasCycle (depFilter store)) :
    DivergesOn (depFilter store) ∧
      vimwikitask_dependency_order store = none := by
  have hdiv : DivergesOn (depFilter store) := fun fuel =>
    depOrderGo_hasCycle_none fuel (depFilter store) hcy
  exact ⟨hdiv, hdiv (depFilter store).length⟩

/-- Witness for `dependency_order_cycle_diverges` at a working set mixing a
removable wrapper with a two-cycle: the first pass makes progress (it yields
the wrapper at line 2), yet the computation still diverges. -/
theorem dependency_order_cycle_diverges_witness :
    DivergesOn (depFilter mixedCycleStore) ∧
      vimwikitask_dependency_order mixedCycleStore = none :=
  dependency_order_cycle_diverges mixedCycleStore
    ⟨[0, 1], by decide, fun k hk => by
      rcases List.mem_cons.mp hk with h | h
      · cases h
        exact ⟨⟨0, [1]⟩, rfl, 1, by decide, by decide⟩
      · rcases List.mem_cons.mp h with h1 | h1
        · cases h1
          exact ⟨⟨1, [0]⟩, rfl, 0, by decide, by decide⟩
        · cases h1⟩

theorem loadLoop_cons (st : TaskCache) (i : Nat) (rest : List Nat) :
    TaskCache.loadLoop st (i :: rest) = (.error .nameError, st) := by
  unfold TaskCache.loadLoop
  rw [getitem_always]

/-- Claim C5 as amended: the authority flag left behind by `load_vwtasks`
equals the previous flag exactly when the scan completes without raising; on
any erroring scan it equals the `buffer_has_authority` argument of the call —
there is no `try`/`finally`, so the restoring assignment is skipped on the
error path.  (With this source's broken `__getitem__`, every scan of a
non-empty buffer errors.) -/
theorem load_vwtasks_flag_after_call (st : TaskCache) (b : Bool) :
    ((st.load_vwtasks b).2).buffer_has_authority =
      match (st.load_vwtasks b).1 with
      | .ok _ => st.buffer_has_authority
      | .error _ => b := by
  rcases st with ⟨buf, vw, tk, fl⟩
  cases buf with
  | nil => rfl
  | cons l0 ls =>
    have he : TaskCache.load_vwtasks ⟨l0 :: ls, vw, tk, fl⟩ b =
        (.error .nameError, ⟨l0 :: ls, vw, tk, b⟩) := by
      show (match TaskCache.loadLoop ⟨l0 :: ls, vw, tk, b⟩
          (List.range (l0 :: ls).length) with
        | (Except.error e, st2) => ((Except.error e : Except PyErr Unit), st2)
        | (Except.ok _, st2) =>
          (Except.ok (), { st2 with buffer_has_authority := fl })) =
        (Except.error PyErr.nameError, (⟨l0 :: ls, vw, tk, b⟩ : TaskCache))
      rw [show List.range (l0 :: ls).length
          = 0 :: (List.range ls.length).map Nat.succ from by
            rw [List.length_cons, List.range_succ_eq_map],
        loadLoop_cons]
    rw [he]

/-- Witness for `load_vwtasks_flag_after_call` at a concrete cache. -/
theorem load_vwtasks_flag_after_call_witness :
    ((cacheOneLine.load_vwtasks false).2).buffer_has_authority =
      match (cacheOneLine.load_vwtasks false).1 with
      | .ok _ => cacheOneLine.buffer_has_authority
      | .error _ => false :=
  load_vwtasks_flag_after_call cacheOneLine false

/-- Claim C5 counterexample: on a one-line buffer with the flag initially
`True`, `load_vwtasks(False)` raises mid-scan and the flag afterwards is
`False` — the argument value, not the pre-call value. -/
theorem load_vwtasks_error_leaves_new_flag :
    cacheOneLine.buffer_has_authority = true ∧
      (cacheOneLine.load_vwtasks false).1 = .error .nameError ∧
      ((cacheOneLine.load_vwtasks false).2).buffer_has_authority = false :=
  ⟨rfl, rfl, rfl⟩

/-- Claim C6 (code_bug): assigning `None` to a store key does not delete the
key — it raises `NameError` (the `key in self` membership probe goes through
the broken `__getitem__`) and leaves the backing dict unchanged, so a
previously stored key is still present afterwards. -/
theorem setitem_none_raises_and_keeps_key :
    (∀ (s : List (Nat × Option VwTask)) (k : Nat),
      NoNoneStore.setitem s k none = (.error .nameError, s)) ∧
      alookup (NoNoneStore.setitem cacheTwoDep.vwtask 0 none).2 0 =
        some (some ⟨0, []⟩) :=
  ⟨fun _ _ => rfl, rfl⟩

/-- Claim C7 as amended: a store lookup never memoizes anything — neither a
value nor any computed-`none` sentinel.  Every `__getitem__` call raises
`NameError` before the compute step (`get_method` unbound on a miss,
`vimwikitask` unbound on a hit) and returns the backing dict unchanged. -/
theorem position_lookup_never_memoizes {κ α : Type} [DecidableEq κ]
    (s : List (κ × Option α)) (k : κ) :
    (NoNoneStore.getitem s k).1 = .error .nameError ∧
      (NoNoneStore.getitem s k).2 = s := by
  rw [getitem_always]
  exact ⟨rfl, rfl⟩

/-- Witness for `position_lookup_never_memoizes` at a concrete store and
key. -/
theorem position_lookup_never_memoizes_witness :
    (NoNoneStore.getitem cacheThree.vwtask 1).1 =
        Except.error PyErr.nameError ∧
      (NoNoneStore.getitem cacheThree.vwtask 1).2 = cacheThree.vwtask :=
  position_lookup_never_memoizes cacheThree.vwtask 1

/-- Claim C7 counterexample: looking up a non-task line (key 0 of an empty
wrapper store) raises instead of computing `none`; nothing is memoized under
any sentinel, and a repeated lookup finds the store exactly as before and
raises again. -/
theorem lookup_of_non_task_line_memoizes_nothing :
    NoNoneStore.getitem cacheOneLine.vwtask 0 =
        (.error .nameError, cacheOneLine.vwtask) ∧
      NoNoneStore.getitem (NoNoneStore.getitem cacheOneLine.vwtask 0).2 0 =
        (.error .nameError, cacheOneLine.vwtask) ∧
      alookup (NoNoneStore.getitem cacheOneLine.vwtask 0).2 0 = none :=
  ⟨rfl, rfl, rfl⟩

/-- Claim C8 (code_bug): `swap_lines(1, 2)` on the three-line cache swaps
only the two raw buffer lines and then raises `NameError` out of the cache
read `self.vwtask[position2]`; the wrapper store — including the entries at
positions 1 and 2 and both wrappers' `line_number` fields — is completely
unchanged, so the wrapper association is *not* exchanged.  (Position 0 is
untouched, as claimed.) -/
theorem swap_lines_swaps_buffer_only_then_raises :
    TaskCache.swap_lines cacheThree 1 2 =
        (.error .nameError,
          { cacheThree with buffer := ["l0", "l2", "l1"] }) ∧
      (TaskCache.swap_lines cacheThree 1 2).2.vwtask = cacheThree.vwtask :=
  ⟨rfl, rfl⟩

/-- Claim C9 (confirmed): called with a position outside the document's valid
range, each structural edit fails with a position error that propagates to
the caller — vim's out-of-range error for `insert_line`/`remove_line`, the
explicit `ValueError` bounds check for `swap_lines` — and the entire cache
state (buffer included) is left unchanged: nothing is silently dropped or
skipped. -/
theorem out_of_range_edit_raises_and_changes_nothing (st : TaskCache)
    (line : String) (p q : Nat) :
    (st.buffer.length < p → st.insert_line line p = (.error .indexError, st)) ∧
      (st.buffer.length ≤ p → st.remove_line p = (.error .indexError, st)) ∧
      (st.buffer.length ≤ p ∨ st.buffer.length ≤ q →
        st.swap_lines p q = (.error .valueError, st)) := by
  refine ⟨?_, ?_, ?_⟩
  · intro h
    unfold TaskCache.insert_line bufferAppend
    rw [if_neg (by omega)]
  · intro h
    unfold TaskCache.remove_line bufferDelete
    rw [if_neg (by omega)]
  · intro h
    unfold TaskCache.swap_lines
    rw [if_pos h]

/-- Witness for `out_of_range_edit_raises_and_changes_nothing` at concrete
out-of-range positions on the three-line cache. -/
theorem out_of_range_edit_witness :
    cacheThree.insert_line "zz" 9 = (.error .indexError, cacheThree) ∧
      cacheThree.remove_line 7 = (.error .indexError, cacheThree) ∧
      cacheThree.swap_lines 5 1 = (.error .valueError, cacheThree) :=
  ⟨(out_of_range_edit_raises_and_changes_nothing cacheThree "zz" 9 1).1
      (by decide),
    (out_of_range_edit_raises_and_changes_nothing cacheThree "zz" 7 1).2.1
      (by decide),
    (out_of_range_edit_raises_and_changes_nothing cacheThree "zz" 5 1).2.2
      (Or.inl (by decide))⟩

/-- Claim C10 (confirmed): a materialized wrapper all of whose
`add_dependencies` line numbers are absent from the working set — never
materialized, or present only as `None` entries filtered out up front — has
every dependency treated as satisfied immediately: it is yielded during the
first pass of the dependency-order scan, and no error of any kind is raised
for the missing referents (the scan is a total computation on the working
set). -/
theorem absent_dependencies_satisfied_first_pass
    (store : List (Nat × Option VwTask)) (k : Nat) (w : VwTask)
    (hmem : (k, some w) ∈ store)
    (hnd : (akeys (depFilter store)).Nodup)
    (habs : ∀ d ∈ w.add_dependencies, alookup (depFilter store) d = none) :
    w ∈ (passOnce (depFilter store)).1 := by
  have hmf : (k, w) ∈ depFilter store := mem_depFilter.mpr hmem
  have hlk : alookup (depFilter store) k = some w := alookup_of_mem_nodup hmf hnd
  exact passAux_mem_yield (akeys (depFilter store)) (depFilter store) k w
    (mem_akeys_of_lookup hlk) hlk habs

/-- Witness for `absent_dependencies_satisfied_first_pass`: the wrapper at
line 5 depends on line 7 (a `None` entry) and line 99 (never materialized),
and is yielded in the first pass. -/
theorem absent_dependencies_satisfied_first_pass_witness :
    (⟨5, [7, 99]⟩ : VwTask) ∈ (passOnce (depFilter freeDepStore)).1 :=
  absent_dependencies_satisfied_first_pass freeDepStore 5 ⟨5, [7, 99]⟩
    (by decide) (by decide) (by decide)
